import Mathlib

/-!
Verification development for the AppTrust templates/rules manager.

The frontend of the repository (React/TypeScript API client, pages and
utilities) is under src/; the FastAPI backend (entity store, version
log, diff engine, publish gateway) is not part of the sources, so those
operations are modelled from the specification, as marked on each
definition.  Pure frontend utilities are translated directly from the
TypeScript sources.
-/

/-- JSON values as produced by a JSON parser: null, booleans, numbers
(modelled as integers), strings, arrays and objects with ordered keys. -/
inductive Json where
  | null : Json
  | bool : Bool → Json
  | num : Int → Json
  | str : String → Json
  | arr : List Json → Json
  | obj : List (String × Json) → Json

/-- Two-space indentation padding used by the pretty printer. -/
def pad (d : Nat) : String := String.mk (List.replicate (2 * d) ' ')

/-- Lower-case hexadecimal digit. -/
def hexDigit (n : Nat) : String :=
  String.mk [if n < 10 then Char.ofNat (48 + n) else Char.ofNat (87 + n)]

/-- Escape of a single character inside a JSON string literal,
following the JSON.stringify escaping rules. -/
def escapeChar (c : Char) : String :=
  if c = '"' then ("\\\"")
  else if c = '\\' then ("\\\\")
  else if c = '\n' then ("\\n")
  else if c = '\r' then ("\\r")
  else if c = '\t' then ("\\t")
  else if c = '\x08' then ("\\b")
  else if c = '\x0c' then ("\\f")
  else if c.toNat < 32 then ("\\u00") ++ hexDigit (c.toNat / 16) ++ hexDigit (c.toNat % 16)
  else String.mk [c]

/-- JSON string literal with quotes and escapes. -/
def escapeString (s : String) : String :=
  "\"" ++ String.join (s.data.map escapeChar) ++ "\""

mutual

/-- Pretty printer for JSON values, modelling JSON.stringify with a
two-space indent; d is the current nesting depth. -/
def stringifyAux : Nat → Json → String
  | _, Json.null => "null"
  | _, Json.bool true => "true"
  | _, Json.bool false => "false"
  | _, Json.num n => toString n
  | _, Json.str s => escapeString s
  | _, Json.arr [] => "[]"
  | d, Json.arr (x :: xs) =>
      "[\n" ++ stringifyItems (d + 1) (x :: xs) ++ "\n" ++ pad d ++ "]"
  | _, Json.obj [] => "\x7b\x7d"
  | d, Json.obj (f :: fs) =>
      "\x7b\n" ++ stringifyFields (d + 1) (f :: fs) ++ "\n" ++ pad d ++ "\x7d"

/-- Array elements of the pretty printer, one per line, comma separated. -/
def stringifyItems : Nat → List Json → String
  | _, [] => ""
  | d, [x] => pad d ++ stringifyAux d x
  | d, x :: y :: xs =>
      pad d ++ stringifyAux d x ++ ",\n" ++ stringifyItems d (y :: xs)

/-- Object fields of the pretty printer, one per line, comma separated. -/
def stringifyFields : Nat → List (String × Json) → String
  | _, [] => ""
  | d, [f] => pad d ++ escapeString f.fst ++ ": " ++ stringifyAux d f.snd
  | d, f :: g :: fs =>
      pad d ++ escapeString f.fst ++ ": " ++ stringifyAux d f.snd ++ ",\n" ++
        stringifyFields d (g :: fs)

end

/-- JSON.stringify(value, null, 2): serialization at depth zero. -/
def stringify2 (j : Json) : String := stringifyAux 0 j

/-- Field lookup on a JSON value, modelling JavaScript property access
with optional chaining: none on non-objects and missing keys. -/
def objGet (j : Json) (key : String) : Option Json :=
  match j with
  | Json.obj fields => (fields.find? (fun f => f.fst == key)).map (fun f => f.snd)
  | _ => none

/-- JavaScript truthiness of a JSON value. -/
def jsTruthy : Json → Bool
  | Json.null => false
  | Json.bool b => b
  | Json.num n => n != 0
  | Json.str s => s != ""
  | Json.arr _ => true
  | Json.obj _ => true

/-- The optional chain parsed?.data?.releaseBundleVersion?.getVersion
from transformPredicateData (src/unnamed/part_001). -/
def chainedGetVersion (parsed : Json) : Option Json :=
  match objGet parsed ("data") with
  | none => none
  | some d =>
      match objGet d ("releaseBundleVersion") with
      | none => none
      | some r => objGet r ("getVersion")

/-- Translation of transformPredicateData (src/unnamed/part_001, lines
39-56).  The host JSON.parse is passed as a parameter (none models a
parse exception, caught by the try/catch which returns the original
string); JSON.stringify(transformed, null, 2) is stringify2. -/
def transformPredicateData (parse : String → Option Json) (jsonString : String) : String :=
  match parse jsonString with
  | none => jsonString
  | some parsed =>
      match chainedGetVersion parsed with
      | some extractedData =>
          if jsTruthy extractedData then
            stringify2 (Json.obj [(("data"), extractedData)])
          else jsonString
      | none => jsonString

/-- Specification-side path lookup: follow a list of keys. -/
def getPath : Json → List String → Option Json
  | j, [] => some j
  | j, k :: ks =>
      match objGet j k with
      | some x => getPath x ks
      | none => none

/-- The field path data.releaseBundleVersion.getVersion. -/
def predicatePath : List String := [("data"), ("releaseBundleVersion"), ("getVersion")]

/-- A JSON value has a truthy value at a field path. -/
def truthyAt (j : Json) (path : List String) : Bool :=
  match getPath j path with
  | some v => jsTruthy v
  | none => false

theorem chainedGetVersion_eq_getPath (j : Json) :
    chainedGetVersion j = getPath j predicatePath := by
  rcases h1 : objGet j ("data") with _ | d
  · simp [chainedGetVersion, predicatePath, getPath, h1]
  · rcases h2 : objGet d ("releaseBundleVersion") with _ | r
    · simp [chainedGetVersion, predicatePath, getPath, h1, h2]
    · rcases h3 : objGet r ("getVersion") with _ | v
      · simp [chainedGetVersion, predicatePath, getPath, h1, h2, h3]
      · simp [chainedGetVersion, predicatePath, getPath, h1, h2, h3]

/-- Claim C8: transformPredicateData returns the input unchanged when
parsing fails or when the field path data.releaseBundleVersion.getVersion
is absent or holds a non-truthy value; when the path holds a truthy value
x it returns the 2-space pretty-printed JSON serialization of the object
wrapping x under the single key data. -/
theorem transformPredicateData_spec (parse : String → Option Json) (s : String) :
    (parse s = none → transformPredicateData parse s = s) ∧
    (∀ j, parse s = some j → truthyAt j predicatePath = false →
      transformPredicateData parse s = s) ∧
    (∀ j v, parse s = some j → getPath j predicatePath = some v → jsTruthy v = true →
      transformPredicateData parse s = stringify2 (Json.obj [(("data"), v)])) := by
  refine ⟨?_, ?_, ?_⟩
  · intro h
    simp [transformPredicateData, h]
  · intro j hj htr
    simp only [transformPredicateData, hj, chainedGetVersion_eq_getPath]
    rcases h : getPath j predicatePath with _ | v
    · rfl
    · simp only [truthyAt, h] at htr
      simp [htr]
  · intro j v hj hp htr
    simp only [transformPredicateData, hj, chainedGetVersion_eq_getPath, hp]
    simp [htr]

/-- The example predicate input from
src/frontend/src/utils/predicateTransform.test.ts: the value at
data.releaseBundleVersion.getVersion. -/
def exampleGetVersion : Json :=
  Json.obj
    [ (("createdBy"), Json.str ("token:marcelol@jfrog.com"))
    , (("createdAt"), Json.str ("2025-11-29T18:08:10.482Z"))
    , (("evidenceConnection"), Json.obj
        [ (("totalCount"), Json.num 2)
        , (("edges"), Json.arr []) ]) ]

/-- The example predicate input from the test file, as parsed JSON. -/
def exampleInput : Json :=
  Json.obj
    [ (("data"), Json.obj
        [ (("releaseBundleVersion"), Json.obj
            [ (("getVersion"), exampleGetVersion) ]) ]) ]

/-- Witness for claim C8, at the example input of the test file. -/
theorem transformPredicateData_spec_witness :
    transformPredicateData (fun _ => some exampleInput) ("") =
      stringify2 (Json.obj [(("data"), exampleGetVersion)]) := by
  exact (transformPredicateData_spec (fun _ => some exampleInput) ("")).2.2
    exampleInput exampleGetVersion rfl (by rfl) (by rfl)

/-- Character class of the capture group, the regex class of letters,
digits and underscore used in extractParamsFromRego. -/
def isIdentChar (c : Char) : Bool :=
  ('a' ≤ c && c ≤ 'z') || ('A' ≤ c && c ≤ 'Z') || ('0' ≤ c && c ≤ '9') || c == '_'

/-- The literal part of the regex of extractParamsFromRego. -/
def paramNeedle : List Char := ("input.params.").data

/-- Whether the first list is a leading segment of the second. -/
def startsWithLit : List Char → List Char → Bool
  | [], _ => true
  | _ :: _, [] => false
  | p :: ps, c :: cs => p == c && startsWithLit ps cs

/-- Whether the needle occurs as a contiguous segment anywhere in the text. -/
def occursIn (needle : List Char) : List Char → Bool
  | [] => needle.isEmpty
  | c :: cs => startsWithLit needle (c :: cs) || occursIn needle cs

/-- All identifiers standing after an occurrence of the literal
input.params. anywhere in the text, taking at each position the maximal
nonempty run of identifier characters; overlapping occurrences all count.
This is the claim-side notion of an identifier occurring after the
literal prefix. -/
def capturesAt : List Char → List (List Char)
  | [] => []
  | c :: cs =>
      (if startsWithLit paramNeedle (c :: cs) then
        (let ident := ((c :: cs).drop paramNeedle.length).takeWhile isIdentChar
         if ident.isEmpty then [] else [ident])
       else []) ++ capturesAt cs

/-- Translation of the regex exec loop of extractParamsFromRego
(src/unnamed/part_001, lines 25-33): a global regex match consumes the
literal plus the maximal nonempty identifier run, and the search resumes
at lastIndex, i.e. right after the consumed text; the first argument
counts characters still to skip before the next search position. -/
def scanAux : Nat → List Char → List (List Char)
  | _, [] => []
  | Nat.succ k, _ :: cs => scanAux k cs
  | 0, c :: cs =>
      if startsWithLit paramNeedle (c :: cs) then
        (let ident := ((c :: cs).drop paramNeedle.length).takeWhile isIdentChar
         if ident.isEmpty then scanAux 0 cs
         else ident :: scanAux (paramNeedle.length + ident.length - 1) cs)
      else scanAux 0 cs

/-- Insertion into a JavaScript Set: keeps the first occurrence,
preserving insertion order. -/
def insertIfNew {α : Type} [DecidableEq α] (acc : List α) (x : α) : List α :=
  if x ∈ acc then acc else acc ++ [x]

/-- Translation of extractParamsFromRego (src/unnamed/part_001, lines
25-33): run the global regex over the source and collect the captured
identifiers into a Set, returned in insertion order. -/
def extractParamsFromRego (rego : String) : List String :=
  ((scanAux 0 rego.data).foldl insertIfNew []).map (fun cs => String.mk cs)

theorem mem_foldl_insertIfNew {α : Type} [DecidableEq α] :
    ∀ (l acc : List α) (x : α), x ∈ l.foldl insertIfNew acc ↔ x ∈ acc ∨ x ∈ l := by
  intro l
  induction l with
  | nil => simp
  | cons a t ih =>
      intro acc x
      rw [List.foldl_cons, ih]
      have hins : x ∈ insertIfNew acc a ↔ x ∈ acc ∨ x = a := by
        unfold insertIfNew
        by_cases hmem : a ∈ acc
        · simp only [if_pos hmem]
          constructor
          · exact fun h => Or.inl h
          · rintro (h | rfl)
            · exact h
            · exact hmem
        · simp [if_neg hmem]
      rw [hins]
      simp [List.mem_cons]
      tauto

theorem nodup_foldl_insertIfNew {α : Type} [DecidableEq α] :
    ∀ (l acc : List α), acc.Nodup → (l.foldl insertIfNew acc).Nodup := by
  intro l
  induction l with
  | nil => exact fun acc h => h
  | cons a t ih =>
      intro acc hacc
      rw [List.foldl_cons]
      apply ih
      unfold insertIfNew
      by_cases hmem : a ∈ acc
      · simpa [if_pos hmem] using hacc
      · simp [if_neg hmem, List.nodup_append, hacc, hmem]

theorem capturesAt_cons_subset (c : Char) (cs : List Char) :
    capturesAt cs ⊆ capturesAt (c :: cs) := by
  intro p hp
  unfold capturesAt
  exact List.mem_append_right _ hp

theorem scanAux_subset_capturesAt :
    ∀ (l : List Char) (k : Nat) (p : List Char), p ∈ scanAux k l → p ∈ capturesAt l := by
  intro l
  induction l with
  | nil => intro k p hp; cases k <;> simp [scanAux] at hp
  | cons c cs ih =>
      intro k p hp
      cases k with
      | succ k =>
          exact capturesAt_cons_subset c cs (ih k p hp)
      | zero =>
          rw [scanAux] at hp
          by_cases hsw : startsWithLit paramNeedle (c :: cs) = true
          · rw [if_pos hsw] at hp
            simp only at hp
            by_cases hemp :
                (((c :: cs).drop paramNeedle.length).takeWhile isIdentChar).isEmpty = true
            · rw [if_pos hemp] at hp
              exact capturesAt_cons_subset c cs (ih 0 p hp)
            · rw [if_neg hemp] at hp
              rcases List.mem_cons.mp hp with rfl | hp2
              · unfold capturesAt
                rw [if_pos hsw]
                simp only [if_neg hemp]
                exact List.mem_append_left _ (List.mem_singleton_self _)
              · exact capturesAt_cons_subset c cs (ih _ p hp2)
          · rw [if_neg hsw] at hp
            exact capturesAt_cons_subset c cs (ih 0 p hp)

theorem scanAux_eq_nil_of_not_occurs :
    ∀ (l : List Char) (k : Nat), occursIn paramNeedle l = false → scanAux k l = [] := by
  intro l
  induction l with
  | nil => intro k _; cases k <;> rfl
  | cons c cs ih =>
      intro k hocc
      rw [occursIn, Bool.or_eq_false_iff] at hocc
      cases k with
      | succ k => exact ih k hocc.2
      | zero =>
          rw [scanAux, if_neg (by simp [hocc.1])]
          exact ih 0 hocc.2

/-- A Rego source in which the identifier y stands after an occurrence
of the literal input.params. that overlaps the text consumed by an
earlier regex match. -/
def cexRego : String := "input.params.xinput.params.y"

/-- The identifier missed by the scan on cexRego. -/
def identY : String := "y"

/-- Claim C9 counterexample: in cexRego the identifier y occurs after
the literal input.params. (at offset 14), yet extractParamsFromRego does
not return it, because the first match consumes input.params.xinput and
the global regex resumes after the consumed text. -/
theorem extractParamsFromRego_cex :
    identY.data ∈ capturesAt cexRego.data ∧
    identY ∉ extractParamsFromRego cexRego ∧
    extractParamsFromRego cexRego = [("xinput")] := by decide

/-- Claim C9 (amended): extractParamsFromRego returns, without
duplicates, exactly the identifiers captured by the left-to-right global
regex scan, in which each match consumes the literal input.params. plus
the maximal nonempty identifier run and searching resumes after the
consumed text (so occurrences overlapping an earlier match are skipped);
every returned identifier does occur after the literal in the source,
and the result is empty whenever the literal does not occur at all. -/
theorem extractParamsFromRego_amended (s : String) :
    (extractParamsFromRego s).Nodup ∧
    (∀ p : String, p ∈ extractParamsFromRego s ↔ p.data ∈ scanAux 0 s.data) ∧
    (∀ p : String, p ∈ extractParamsFromRego s → p.data ∈ capturesAt s.data) ∧
    (occursIn paramNeedle s.data = false → extractParamsFromRego s = []) := by
  have hinj : Function.Injective (fun cs : List Char => String.mk cs) := by
    intro a b h
    simp only at h
    exact congrArg String.data h
  have hmem : ∀ p : String, p ∈ extractParamsFromRego s ↔ p.data ∈ scanAux 0 s.data := by
    intro p
    unfold extractParamsFromRego
    rw [List.mem_map]
    constructor
    · rintro ⟨cs, hcs, rfl⟩
      rcases (mem_foldl_insertIfNew _ _ _).mp hcs with h | h
      · simp at h
      · simpa using h
    · intro h
      exact ⟨p.data, (mem_foldl_insertIfNew _ _ _).mpr (Or.inr h), by simp⟩
  refine ⟨?_, hmem, ?_, ?_⟩
  · exact ((nodup_foldl_insertIfNew _ [] List.nodup_nil).map hinj)
  · intro p hp
    exact scanAux_subset_capturesAt s.data 0 p.data ((hmem p).mp hp)
  · intro hocc
    unfold extractParamsFromRego
    rw [scanAux_eq_nil_of_not_occurs s.data 0 hocc]
    rfl

/-- A Rego source without any occurrence of the literal input.params. -/
def plainRego : String := "package example.policy"

/-- Witness for claim C9: on a source without the literal the extraction
is empty. -/
theorem extractParamsFromRego_amended_witness :
    extractParamsFromRego plainRego = [] := by
  exact (extractParamsFromRego_amended plainRego).2.2.2 (by decide)

/-- Line-level change markers of the diff contract. -/
inductive DiffLine where
  | added : String → DiffLine
  | removed : String → DiffLine
  | unchanged : String → DiffLine
deriving DecidableEq

/-- Modelled from the spec: the backend diff engine is not under src/;
section 4.3 specifies a deterministic, purely text-line diff producing
an ordered sequence of added/removed/unchanged markers over the two
serializations, modelled as a positional line comparison of the base
lines against the target lines. -/
def diffLines : List String → List String → List DiffLine
  | [], ts => ts.map DiffLine.added
  | b :: bs, [] => DiffLine.removed b :: diffLines bs []
  | b :: bs, t :: ts =>
      if b = t then DiffLine.unchanged b :: diffLines bs ts
      else DiffLine.removed b :: DiffLine.added t :: diffLines bs ts

/-- Role swap on a change marker: added and removed exchange, unchanged
keeps its role. -/
def swapMarker : DiffLine → DiffLine
  | DiffLine.added s => DiffLine.removed s
  | DiffLine.removed s => DiffLine.added s
  | DiffLine.unchanged s => DiffLine.unchanged s

/-- Whether a change marker is an unchanged line. -/
def isUnchangedMarker : DiffLine → Bool
  | DiffLine.unchanged _ => true
  | _ => false

/-- Canonical textual serialization of a version snapshot, split into
lines (spec section 4.3: pretty-printed structured form). -/
def snapshotLines (snapshot : Json) : List String :=
  (stringify2 snapshot).splitOn ("\n")

/-- Diff of two snapshots over their canonical serializations. -/
def diffSnapshots (base target : Json) : List DiffLine :=
  diffLines (snapshotLines base) (snapshotLines target)

theorem diffLines_self_all_unchanged :
    ∀ ls : List String, (diffLines ls ls).all isUnchangedMarker = true := by
  intro ls
  induction ls with
  | nil => rfl
  | cons a t ih =>
      rw [diffLines, if_pos rfl]
      simpa [isUnchangedMarker] using ih

theorem diffLines_swap :
    ∀ (a b : List String), (diffLines b a).Perm ((diffLines a b).map swapMarker) := by
  intro a
  induction a with
  | nil =>
      intro b
      induction b with
      | nil => simp [diffLines]
      | cons x xs ihb =>
          simp only [diffLines, List.map_cons, swapMarker]
          have h2 := ihb
          simp only [diffLines] at h2
          exact h2.cons _
  | cons x xs ih =>
      intro b
      cases b with
      | nil =>
          simp only [diffLines, List.map_cons, swapMarker]
          have h2 := ih []
          simp only [diffLines] at h2
          exact h2.cons _
      | cons y ys =>
          by_cases h : x = y
          · subst h
            rw [diffLines, if_pos rfl, diffLines, if_pos rfl]
            simp only [List.map_cons, swapMarker]
            exact (ih ys).cons _
          · rw [diffLines, if_neg (fun hh => h hh.symm), diffLines, if_neg h]
            simp only [List.map_cons, swapMarker]
            refine List.Perm.trans (List.Perm.swap _ _ _) ?_
            exact ((ih ys).cons _).cons _

/-- Entity lifecycle status (src/frontend/src/api/rules.ts and
src/unnamed/part_003: status is draft or published). -/
inductive Status where
  | draft : Status
  | published : Status
deriving DecidableEq

/-- TemplateParameter interface (src/unnamed/part_003, lines 3-7). -/
structure TemplateParameter where
  name : String
  type : String
  description : Option String
deriving DecidableEq

/-- Template interface (src/unnamed/part_003, lines 9-28). -/
structure Template where
  id : Nat
  name : String
  description : Option String
  category : String
  data_source_type : String
  version : String
  rego : String
  parameters : List TemplateParameter
  scanners : List String
  status : Status
  remote_id : Option String
  created_at : String
  updated_at : String
deriving DecidableEq

/-- RuleParameter interface (src/frontend/src/api/rules.ts, lines 3-6). -/
structure RuleParameter where
  name : String
  value : String
deriving DecidableEq

/-- Rule interface (src/frontend/src/api/rules.ts, lines 8-25). -/
structure Rule where
  id : Nat
  template_id : Nat
  name : String
  description : Option String
  is_custom : Bool
  version : String
  parameters : List RuleParameter
  status : Status
  remote_id : Option String
  created_at : String
  updated_at : String
deriving DecidableEq

/-- Version record (TemplateVersion in src/unnamed/part_003, lines 30-40,
and RuleVersion in src/frontend/src/api/rules.ts, lines 27-37): the
version_ref is modelled as a number drawn from a fresh counter. -/
structure Version where
  id : Nat
  entity_id : Nat
  version_ref : Nat
  message : String
  author : String
  snapshot : Json
  parent_id : Option Nat
  is_published : Bool

/-- PublishResult interface (src/unnamed/part_003, lines 42-46). -/
structure PublishResult where
  remote_id : String
  version_ref : String
  published_at : String
deriving DecidableEq

/-- Version Log state: append-only list of versions in chronological
order, plus the id and version_ref generators. -/
structure LogState where
  versions : List Version
  next_id : Nat
  next_ref : Nat

/-- Versions of one entity, in chronological order. -/
def versionsFor (st : LogState) (eid : Nat) : List Version :=
  st.versions.filter (fun v => v.entity_id == eid)

/-- The latest version of the entity, if any. -/
def latestFor (st : LogState) (eid : Nat) : Option Version :=
  (versionsFor st eid).getLast?

/-- Version lookup by id. -/
def getVersionById (st : LogState) (vid : Nat) : Option Version :=
  st.versions.find? (fun v => v.id == vid)

/-- Modelled from the spec: the Version Log append operation is not
under src/ (section 4.2): append(entity_id, snapshot, author, message)
creates a Version with a freshly generated version_ref and parent_id
pointing at the previous latest version of the entity, null if it is the
first. -/
def newVersion (st : LogState) (eid : Nat) (snapshot : Json)
    (author message : String) : Version :=
  { id := st.next_id
  , entity_id := eid
  , version_ref := st.next_ref
  , message := message
  , author := author
  , snapshot := snapshot
  , parent_id := (latestFor st eid).map (fun p => p.id)
  , is_published := false }

/-- The log state after an append: the version is added at the end and
both generators advance. -/
def appendVersion (st : LogState) (eid : Nat) (snapshot : Json)
    (author message : String) : LogState × Version :=
  ({ versions := st.versions ++ [newVersion st eid snapshot author message]
   , next_id := st.next_id + 1
   , next_ref := st.next_ref + 1 }, newVersion st eid snapshot author message)

/-- One save request: the snapshot with its commit metadata. -/
structure SaveReq where
  snapshot : Json
  author : String
  message : String

/-- A single entity save (create or update) appends one version. -/
def applySave (st : LogState) (eid : Nat) (r : SaveReq) : LogState :=
  (appendVersion st eid r.snapshot r.author r.message).1

/-- A sequence of saves applied in order. -/
def applySaves (st : LogState) (eid : Nat) (rs : List SaveReq) : LogState :=
  rs.foldl (fun s r => applySave s eid r) st

/-- Whether a chronological version list is a linear parent chain whose
first entry has the given parent pointer and in which every later entry
points at its predecessor. -/
def chainFromB : Option Nat → List Version → Bool
  | _, [] => true
  | p, v :: vs => (v.parent_id == p) && chainFromB (some v.id) vs

/-- The parent pointer a version appended after the given chronological
list must carry: the id of the last entry, or the initial pointer if the list
is empty. -/
def endParent (p : Option Nat) : List Version → Option Nat
  | [] => p
  | v :: vs => endParent (some v.id) vs

/-- All recorded version_refs are below the generator. -/
def refsBelow (st : LogState) : Prop :=
  ∀ v ∈ st.versions, v.version_ref < st.next_ref

/-- Error taxonomy of the specification (section 7). -/
inductive ApiError where
  | notFound : ApiError
  | conflict : ApiError
  | validationError : ApiError
  | remoteError : ApiError
deriving DecidableEq

/-- The rules depending on a template, as computed by
handleDeleteTemplate (src/unnamed/part_001, line 219). -/
def dependentRulesFor (rules : List Rule) (templateId : Nat) : List Rule :=
  rules.filter (fun r => r.template_id == templateId)

/-- Combined store: template entities, rule entities and the version
log. -/
structure Store where
  templates : List Template
  rules : List Rule
  log : LogState

/-- Modelled from the spec: the backend delete endpoint is not under
src/ (sections 4.1 and 7): delete fails with Conflict when dependent
rules reference the template and is otherwise performed by removing the
template only, never cascading; the dependency check is the same filter
the frontend guard handleDeleteTemplate (src/unnamed/part_001, lines
215-236) evaluates. -/
def deleteTemplateOp (st : Store) (templateId : Nat) : Except ApiError Store :=
  match st.templates.find? (fun t => t.id == templateId) with
  | none => Except.error ApiError.notFound
  | some _ =>
      if (dependentRulesFor st.rules templateId).isEmpty then
        Except.ok { st with templates := st.templates.filter (fun t => !(t.id == templateId)) }
      else Except.error ApiError.conflict

/-- Modelled from the spec: the diff endpoint is not under src/ (section
4.3): diff of a version against an explicit compare target, or against
the parent of the version when the target is omitted, failing with NotFound
when the version is a first version without parent. -/
def diffOp (st : LogState) (versionId : Nat) (compareTo : Option Nat) :
    Except ApiError (List DiffLine) :=
  match getVersionById st versionId with
  | none => Except.error ApiError.notFound
  | some v =>
      match compareTo with
      | some otherId =>
          match getVersionById st otherId with
          | none => Except.error ApiError.notFound
          | some b =>
              Except.ok (diffLines (snapshotLines b.snapshot) (snapshotLines v.snapshot))
      | none =>
          match v.parent_id with
          | none => Except.error ApiError.notFound
          | some pid =>
              match getVersionById st pid with
              | none => Except.error ApiError.notFound
              | some p =>
                  Except.ok (diffLines (snapshotLines p.snapshot) (snapshotLines v.snapshot))

/-- Modelled from the spec: flagging of the latest version at a
successful publish (section 4.4). -/
def markLatestPublished (lst : LogState) (eid : Nat) : LogState :=
  match latestFor lst eid with
  | none => lst
  | some v =>
      { lst with versions :=
          lst.versions.map (fun w =>
            if w.id == v.id then { w with is_published := true } else w) }

/-- Modelled from the spec: the Publish Gateway is not under src/
(section 4.4): the remote call outcome is passed as a parameter (none
models a transport or validation failure of the remote side); on success
the template becomes published with the returned remote_id and the
latest version is flagged, on failure the store is returned untouched. -/
def publishTemplateOp (st : Store) (templateId : Nat) (remote : Option PublishResult) :
    Except ApiError PublishResult × Store :=
  match st.templates.find? (fun t => t.id == templateId) with
  | none => (Except.error ApiError.notFound, st)
  | some _ =>
      match remote with
      | none => (Except.error ApiError.remoteError, st)
      | some res =>
          (Except.ok res,
            { st with
              templates := st.templates.map (fun t =>
                if t.id == templateId then
                  { t with status := Status.published, remote_id := some res.remote_id }
                else t)
            , log := markLatestPublished st.log templateId })

theorem versionsFor_applySave (st : LogState) (eid : Nat) (r : SaveReq) :
    versionsFor (applySave st eid r) eid =
      versionsFor st eid ++ [newVersion st eid r.snapshot r.author r.message] := by
  simp [applySave, appendVersion, versionsFor, List.filter_append, newVersion]

theorem endParent_cons (p : Option Nat) (u : Version) (vs : List Version) :
    endParent p (u :: vs) = endParent (some u.id) vs := rfl

theorem chainFromB_append :
    ∀ (vs : List Version) (p : Option Nat) (v : Version),
      chainFromB p (vs ++ [v]) = (chainFromB p vs && (v.parent_id == endParent p vs)) := by
  intro vs
  induction vs with
  | nil =>
      intro p v
      simp [chainFromB, endParent]
  | cons u t ih =>
      intro p v
      simp only [List.cons_append, chainFromB, List.append_eq, ih, endParent_cons,
        Bool.and_assoc]

theorem endParent_some_eq :
    ∀ (vs : List Version) (x : Version),
      endParent (some x.id) vs = ((x :: vs).getLast?).map (fun u => u.id) := by
  intro vs
  induction vs with
  | nil => intro x; rfl
  | cons v t ih =>
      intro x
      rw [show endParent (some x.id) (v :: t) = endParent (some v.id) t from rfl]
      rw [ih v, List.getLast?_cons_cons]

theorem endParent_none_eq (vs : List Version) :
    endParent none vs = vs.getLast?.map (fun p => p.id) := by
  cases vs with
  | nil => rfl
  | cons v t =>
      rw [show endParent none (v :: t) = endParent (some v.id) t from rfl]
      exact endParent_some_eq t v

theorem applySave_props (st : LogState) (eid : Nat) (r : SaveReq)
    (hb : refsBelow st)
    (hc : chainFromB none (versionsFor st eid) = true)
    (hn : ((versionsFor st eid).map (fun v => v.version_ref)).Nodup) :
    refsBelow (applySave st eid r) ∧
    chainFromB none (versionsFor (applySave st eid r) eid) = true ∧
    ((versionsFor (applySave st eid r) eid).map (fun v => v.version_ref)).Nodup ∧
    (versionsFor (applySave st eid r) eid).length = (versionsFor st eid).length + 1 := by
  have hver := versionsFor_applySave st eid r
  refine ⟨?_, ?_, ?_, ?_⟩
  · intro v hv
    simp only [applySave, appendVersion] at hv ⊢
    rcases List.mem_append.mp hv with h | h
    · exact Nat.lt_succ_of_lt (hb v h)
    · rw [List.mem_singleton.mp h]
      exact Nat.lt_succ_self _
  · rw [hver, chainFromB_append, hc, Bool.true_and, endParent_none_eq]
    simp [newVersion, latestFor]
  · rw [hver, List.map_append, List.nodup_append]
    refine ⟨hn, List.nodup_singleton _, ?_⟩
    intro a ha hmem
    rcases List.mem_map.mp ha with ⟨v, hv, rfl⟩
    have hlt : v.version_ref < st.next_ref := hb v (List.mem_of_mem_filter hv)
    have : (newVersion st eid r.snapshot r.author r.message).version_ref = st.next_ref := rfl
    rcases List.mem_map.mp hmem with ⟨w, hw, hww⟩
    rw [List.mem_singleton.mp hw] at hww
    rw [this] at hww
    omega
  · rw [hver]
    simp

theorem applySaves_props :
    ∀ (rs : List SaveReq) (st : LogState) (eid : Nat),
      refsBelow st →
      chainFromB none (versionsFor st eid) = true →
      ((versionsFor st eid).map (fun v => v.version_ref)).Nodup →
      refsBelow (applySaves st eid rs) ∧
      chainFromB none (versionsFor (applySaves st eid rs) eid) = true ∧
      ((versionsFor (applySaves st eid rs) eid).map (fun v => v.version_ref)).Nodup ∧
      (versionsFor (applySaves st eid rs) eid).length =
        (versionsFor st eid).length + rs.length := by
  intro rs
  induction rs with
  | nil =>
      intro st eid hb hc hn
      exact ⟨hb, hc, hn, by simp [applySaves]⟩
  | cons r t ih =>
      intro st eid hb hc hn
      obtain ⟨hb1, hc1, hn1, hl1⟩ := applySave_props st eid r hb hc hn
      obtain ⟨hb2, hc2, hn2, hl2⟩ := ih (applySave st eid r) eid hb1 hc1 hn1
      have happ : applySaves st eid (r :: t) = applySaves (applySave st eid r) eid t := rfl
      rw [happ]
      refine ⟨hb2, hc2, hn2, ?_⟩
      rw [hl2, hl1]
      simp only [List.length_cons]
      omega

/-- Claim C2: starting from a log in which the entity has no versions
yet, the creating save followed by N sequential updates leaves exactly
N+1 versions for the entity, their version_refs are pairwise distinct,
and the parent_id pointers form a linear chain: the root version carries
a null parent and every later version points at its predecessor, so the
chain runs from the newest version back to the root. -/
theorem version_log_create_updates (st : LogState) (eid : Nat)
    (first : SaveReq) (updates : List SaveReq)
    (hb : refsBelow st) (h0 : versionsFor st eid = []) :
    (versionsFor (applySaves st eid (first :: updates)) eid).length = updates.length + 1 ∧
    ((versionsFor (applySaves st eid (first :: updates)) eid).map
        (fun v => v.version_ref)).Nodup ∧
    chainFromB none (versionsFor (applySaves st eid (first :: updates)) eid) = true := by
  obtain ⟨_, hc, hn, hl⟩ := applySaves_props (first :: updates) st eid hb
    (by rw [h0]; rfl) (by rw [h0]; exact List.nodup_nil)
  refine ⟨?_, hn, hc⟩
  rw [hl, h0]
  simp

/-- The empty version log. -/
def emptyLog : LogState := { versions := [], next_id := 1, next_ref := 1 }

/-- Sample creating save. -/
def saveW0 : SaveReq :=
  { snapshot := Json.str ("v0"), author := ("system"), message := ("Initial draft") }

/-- Sample update save. -/
def saveW1 : SaveReq :=
  { snapshot := Json.str ("v1"), author := ("system"), message := ("Update draft") }

/-- Witness for claim C2: a create followed by one update on a fresh log
yields two versions for the entity. -/
theorem version_log_create_updates_witness :
    (versionsFor (applySaves emptyLog 1 [saveW0, saveW1]) 1).length = 2 := by
  exact (version_log_create_updates emptyLog 1 saveW0 [saveW1]
    (by intro v hv; simp [emptyLog] at hv) (by rfl)).1

/-- Claim C1: deleting a template referenced by at least one existing
rule fails with Conflict; deleting a template no rule references
succeeds, removing only that template while the rules and the version
log are untouched — deletion is blocked, never cascaded. -/
theorem deleteTemplate_conflict_or_deletes (st : Store) (t : Template)
    (ht : st.templates.find? (fun u => u.id == t.id) = some t) :
    ((∃ r ∈ st.rules, r.template_id = t.id) →
      deleteTemplateOp st t.id = Except.error ApiError.conflict) ∧
    ((∀ r ∈ st.rules, r.template_id ≠ t.id) →
      ∃ st2, deleteTemplateOp st t.id = Except.ok st2 ∧
        (∀ u ∈ st2.templates, u.id ≠ t.id) ∧
        st2.rules = st.rules ∧ st2.log = st.log ∧
        (∀ u ∈ st.templates, u.id ≠ t.id → u ∈ st2.templates)) := by
  constructor
  · rintro ⟨r, hr, hrt⟩
    have hmem : r ∈ dependentRulesFor st.rules t.id := by
      unfold dependentRulesFor
      exact List.mem_filter.mpr ⟨hr, by simp [hrt]⟩
    have hne : (dependentRulesFor st.rules t.id).isEmpty = false := by
      cases hh : (dependentRulesFor st.rules t.id).isEmpty
      · rfl
      · rw [List.isEmpty_iff] at hh
        rw [hh] at hmem
        exact absurd hmem (List.not_mem_nil r)
    simp [deleteTemplateOp, ht, hne]
  · intro hall
    have he : (dependentRulesFor st.rules t.id).isEmpty = true := by
      rw [List.isEmpty_iff]
      unfold dependentRulesFor
      rw [List.filter_eq_nil_iff]
      intro r hr
      simp [hall r hr]
    refine ⟨{ st with templates := st.templates.filter (fun u => !(u.id == t.id)) },
      ?_, ?_, rfl, rfl, ?_⟩
    · simp [deleteTemplateOp, ht, he]
    · intro u hu
      have hpred := (List.mem_filter.mp hu).2
      simpa using hpred
    · intro u hu hne
      exact List.mem_filter.mpr ⟨hu, by simp [hne]⟩

/-- Sample template with id 1. -/
def tmplW : Template :=
  { id := 1, name := ("t1"), description := none, category := ("security")
  , data_source_type := ("evidence"), version := ("0.1.0"), rego := ("package p")
  , parameters := [], scanners := [], status := Status.draft, remote_id := none
  , created_at := (""), updated_at := ("") }

/-- Sample rule referencing template 1. -/
def ruleW : Rule :=
  { id := 7, template_id := 1, name := ("r1"), description := none, is_custom := true
  , version := ("0.1.0"), parameters := [], status := Status.draft, remote_id := none
  , created_at := (""), updated_at := ("") }

/-- Store with one template and one dependent rule. -/
def storeW : Store := { templates := [tmplW], rules := [ruleW], log := emptyLog }

/-- Witness for claim C1: deleting template 1 while rule 7 references it
fails with Conflict. -/
theorem deleteTemplate_conflict_witness :
    deleteTemplateOp storeW 1 = Except.error ApiError.conflict := by
  exact (deleteTemplate_conflict_or_deletes storeW tmplW (by rfl)).1 ⟨ruleW, by decide⟩

/-- Claim C3: a diff call on a version with the compare target omitted
compares the version against the version identified by its parent_id,
and fails with NotFound when the version has no parent, i.e. is the
first version of its entity. -/
theorem diffOp_parent_default (st : LogState) (vid : Nat) (v : Version)
    (hv : getVersionById st vid = some v) :
    (v.parent_id = none → diffOp st vid none = Except.error ApiError.notFound) ∧
    (∀ pid p, v.parent_id = some pid → getVersionById st pid = some p →
      diffOp st vid none =
        Except.ok (diffLines (snapshotLines p.snapshot) (snapshotLines v.snapshot))) := by
  constructor
  · intro hp
    simp [diffOp, hv, hp]
  · intro pid p hp hgp
    simp [diffOp, hv, hp, hgp]

/-- The first version of entity 1 in the sample log: no parent. -/
def rootVersionW : Version :=
  { id := 1, entity_id := 1, version_ref := 1, message := ("Initial draft")
  , author := ("system"), snapshot := Json.obj [], parent_id := none
  , is_published := false }

/-- A log holding only the root version of entity 1. -/
def logW : LogState := { versions := [rootVersionW], next_id := 2, next_ref := 2 }

/-- Witness for claim C3: the implicit diff of a first version fails
with NotFound. -/
theorem diffOp_parent_default_witness :
    diffOp logW 1 none = Except.error ApiError.notFound := by
  exact (diffOp_parent_default logW 1 rootVersionW (by rfl)).1 (by rfl)

/-- Claim C5: diffing a version against itself yields a change sequence
with no added and no removed lines — every marker is unchanged. -/
theorem diffOp_self_unchanged (st : LogState) (vid : Nat) (v : Version)
    (hv : getVersionById st vid = some v) :
    diffOp st vid (some vid) =
      Except.ok (diffLines (snapshotLines v.snapshot) (snapshotLines v.snapshot)) ∧
    ∀ d ∈ diffLines (snapshotLines v.snapshot) (snapshotLines v.snapshot),
      isUnchangedMarker d = true := by
  constructor
  · simp [diffOp, hv]
  · intro d hd
    have hall := diffLines_self_all_unchanged (snapshotLines v.snapshot)
    rw [List.all_eq_true] at hall
    exact hall d hd

/-- Witness for claim C5, at the sample log. -/
theorem diffOp_self_unchanged_witness :
    diffOp logW 1 (some 1) =
      Except.ok (diffLines (snapshotLines rootVersionW.snapshot)
        (snapshotLines rootVersionW.snapshot)) := by
  exact (diffOp_self_unchanged logW 1 rootVersionW (by rfl)).1

/-- Claim C6: the diffs of two versions in the two orders contain the
same marked lines with the added and removed roles exchanged, unchanged
lines keeping their role. -/
theorem diffSnapshots_swap (s1 s2 : Json) :
    (diffSnapshots s2 s1).Perm ((diffSnapshots s1 s2).map swapMarker) :=
  diffLines_swap (snapshotLines s1) (snapshotLines s2)

/-- Claim C7: the diff is deterministic and purely textual — its result
is completely determined by the serialized line sequences of the two
snapshots, so two invocations on the same pair of snapshots always
produce the same markers in the same order. -/
theorem diffSnapshots_textual_deterministic (a1 b1 a2 b2 : Json)
    (ha : snapshotLines a1 = snapshotLines a2)
    (hb : snapshotLines b1 = snapshotLines b2) :
    diffSnapshots a1 b1 = diffSnapshots a2 b2 := by
  unfold diffSnapshots
  rw [ha, hb]

/-- Witness for claim C7, at two identical concrete snapshots. -/
theorem diffSnapshots_textual_deterministic_witness :
    diffSnapshots Json.null (Json.num 1) = diffSnapshots Json.null (Json.num 1) := by
  exact diffSnapshots_textual_deterministic Json.null (Json.num 1) Json.null (Json.num 1)
    rfl rfl

theorem filter_map_entity (l : List Version) (f : Version → Version) (eid : Nat)
    (hf : ∀ w, (f w).entity_id = w.entity_id) :
    (l.map f).filter (fun w => w.entity_id == eid) =
      (l.filter (fun w => w.entity_id == eid)).map f := by
  induction l with
  | nil => rfl
  | cons a t ih =>
      simp only [List.map_cons, List.filter_cons, hf a]
      cases h : (a.entity_id == eid)
      · simpa [h] using ih
      · simp [h, ih]

theorem getLast?_map_fn {α β : Type} (f : α → β) :
    ∀ l : List α, (l.map f).getLast? = (l.getLast?).map f := by
  intro l
  induction l with
  | nil => rfl
  | cons a t ih =>
      cases t with
      | nil => rfl
      | cons b u =>
          rw [List.map_cons, List.map_cons, List.getLast?_cons_cons,
            List.getLast?_cons_cons, ← List.map_cons f b u]
          exact ih

theorem latestFor_markLatestPublished (lst : LogState) (eid : Nat) (v : Version)
    (hv : latestFor lst eid = some v) :
    latestFor (markLatestPublished lst eid) eid =
      some { v with is_published := true } := by
  unfold markLatestPublished
  rw [hv]
  unfold latestFor versionsFor at hv ⊢
  simp only
  rw [filter_map_entity _ _ _ (fun w => by cases h : (w.id == v.id) <;> simp [h])]
  rw [getLast?_map_fn, hv]
  simp

/-- Claim C4: with the template present and owning at least one version,
a successful publish reports the remote result, sets the
template status to published with the non-null returned remote_id, and flags the
latest version as published; a publish whose remote call fails reports
RemoteError and leaves the whole local store unchanged — no partial
mutation. -/
theorem publishTemplate_atomic (st : Store) (templateId : Nat) (t : Template) (v : Version)
    (ht : st.templates.find? (fun u => u.id == templateId) = some t)
    (hv : latestFor st.log templateId = some v) :
    (∀ res : PublishResult,
      (publishTemplateOp st templateId (some res)).1 = Except.ok res ∧
      (∀ u ∈ (publishTemplateOp st templateId (some res)).2.templates,
        u.id = templateId →
          u.status = Status.published ∧ u.remote_id = some res.remote_id) ∧
      (∃ v2, latestFor (publishTemplateOp st templateId (some res)).2.log templateId =
          some v2 ∧ v2.is_published = true)) ∧
    ((publishTemplateOp st templateId none).1 = Except.error ApiError.remoteError ∧
      (publishTemplateOp st templateId none).2 = st) := by
  constructor
  · intro res
    refine ⟨?_, ?_, ?_⟩
    · simp [publishTemplateOp, ht]
    · intro u hu hid
      simp only [publishTemplateOp, ht] at hu
      rcases List.mem_map.mp hu with ⟨w, _, rfl⟩
      cases h : (w.id == templateId)
      · rw [if_neg (by simp [h])] at hid ⊢
        rw [hid] at h
        simp at h
      · rw [if_pos (by simp [h])]
        exact ⟨rfl, rfl⟩
    · refine ⟨{ v with is_published := true }, ?_, rfl⟩
      simp only [publishTemplateOp, ht]
      exact latestFor_markLatestPublished st.log templateId v hv
  · exact ⟨by simp [publishTemplateOp, ht], by simp [publishTemplateOp, ht]⟩

/-- Store with one template and its root version, no rules. -/
def storePubW : Store := { templates := [tmplW], rules := [], log := logW }

/-- Witness for claim C4: a failed remote call leaves the store
untouched. -/
theorem publishTemplate_atomic_witness :
    (publishTemplateOp storePubW 1 none).2 = storePubW := by
  exact ((publishTemplate_atomic storePubW 1 tmplW rootVersionW (by rfl) (by rfl)).2).2

/-- The query params object of the diff endpoints: the compare_to key. -/
structure QueryParams where
  compare_to : Int
deriving DecidableEq

/-- An HTTP GET request assembled by the client diff calls: the url and
the optional params object, none modelling undefined. -/
structure GetRequest where
  url : String
  params : Option QueryParams
deriving DecidableEq

/-- JavaScript truthiness of an optional number: undefined and 0 are
falsy, every other number truthy. -/
def jsTruthyNum : Option Int → Bool
  | none => false
  | some n => n != 0

/-- Translation of diffRuleVersion (src/frontend/src/api/rules.ts, lines
80-90): params is the compare_to object when compareTo is truthy, else
undefined. -/
def diffRuleVersionReq (ruleId versionId : Int) (compareTo : Option Int) : GetRequest :=
  { url := ("/rules/") ++ toString ruleId ++ ("/versions/") ++ toString versionId ++ ("/diff")
  , params :=
      if jsTruthyNum compareTo then compareTo.map (fun n => { compare_to := n }) else none }

/-- Translation of diffTemplateVersion (src/unnamed/part_003, lines
83-93): params is the compare_to object when compareTo is truthy, else
undefined. -/
def diffTemplateVersionReq (templateId versionId : Int) (compareTo : Option Int) :
    GetRequest :=
  { url := ("/templates/") ++ toString templateId ++ ("/versions/") ++ toString versionId ++
      ("/diff")
  , params :=
      if jsTruthyNum compareTo then compareTo.map (fun n => { compare_to := n }) else none }

/-- Claim C10: both diff clients include the compare_to query parameter
exactly when the compareTo argument is truthy, and a truthy argument n
sends exactly compare_to = n; a call with compareTo equal to 0 (like
one with it undefined) sends no compare_to parameter and is the same
request as the implicit compare-with-parent form, so a version with id
0 can never be addressed as an explicit comparison target. -/
theorem diffClient_compare_to_truthy (rid vid : Int) (ct : Option Int) :
    ((diffRuleVersionReq rid vid ct).params ≠ none ↔ ∃ n, ct = some n ∧ n ≠ 0) ∧
    ((diffTemplateVersionReq rid vid ct).params ≠ none ↔ ∃ n, ct = some n ∧ n ≠ 0) ∧
    (∀ n : Int, ct = some n → n ≠ 0 →
      (diffRuleVersionReq rid vid ct).params = some { compare_to := n } ∧
      (diffTemplateVersionReq rid vid ct).params = some { compare_to := n }) ∧
    diffRuleVersionReq rid vid (some 0) = diffRuleVersionReq rid vid none ∧
    diffTemplateVersionReq rid vid (some 0) = diffTemplateVersionReq rid vid none := by
  have hps : (if jsTruthyNum ct then ct.map (fun n => ({ compare_to := n } : QueryParams))
      else none) ≠ none ↔ ∃ n, ct = some n ∧ n ≠ 0 := by
    cases ct with
    | none => simp [jsTruthyNum]
    | some n =>
        by_cases h : n = 0
        · subst h
          simp [jsTruthyNum]
        · simp [jsTruthyNum, h]
  refine ⟨hps, hps, ?_, rfl, rfl⟩
  rintro n rfl hn
  constructor
  · simp [diffRuleVersionReq, jsTruthyNum, hn]
  · simp [diffTemplateVersionReq, jsTruthyNum, hn]

/-- Witness for claim C10: a call with the truthy comparison target 3
sends exactly the compare_to parameter 3. -/
theorem diffClient_compare_to_truthy_witness :
    (diffRuleVersionReq 1 2 (some 3)).params = some { compare_to := 3 } := by
  exact ((diffClient_compare_to_truthy 1 2 (some 3)).2.2.1 3 rfl (by decide)).1
